import Mathlib

/-!
# hw2 `httpserver.c`: files mode, proxy mode and start-up flags

A shallow embedding of `src/homeworks/hw2/httpserver.c`.  C strings live in
heap blocks (lists of characters with their terminator), the calls a handler
makes into the wire-format library and the operating system are recorded as a
trace, and everything the handler asks of its surroundings (the file system,
the parsed request, the bytes `malloc` and `realloc` leave in a new block, the
outcome of `socket`, `connect`, ...) is an explicit argument.
-/

namespace httpserver

/-! ## C strings in heap blocks -/

/-- The string terminator, the character with code 0. -/
def NUL : Char := Char.ofNat 0

/-- A heap block, seen from the address a `char*` holds: the size of the
allocation and its contents from the start on.  Where `bytes` is shorter than
`size` the bytes that follow are NUL; listing all `size` bytes describes any
contents. -/
structure Block where
  bytes : List Char
  size : Nat
  deriving DecidableEq, Repr

/-- A string literal as it lies in memory: its characters and the terminator. -/
def lit (s : String) : Block := ⟨s.toList ++ [NUL], s.length + 1⟩

/-- The call `malloc(n)`; an allocation always succeeds.  The C standard leaves
the bytes of the new block indeterminate: `fresh` lists the bytes the allocator
left in it, an input of the model (a list shorter than `n` stands for these
bytes followed by NUL bytes). -/
def malloc (fresh : List Char) (n : Nat) : Block := ⟨fresh.take n, n⟩

/-- The call `realloc(p, n)`: the old contents are kept up to the new size, and
`fresh` lists the indeterminate bytes of the part gained. -/
def realloc (fresh : List Char) (p : Block) (n : Nat) : Block :=
  ⟨(p.bytes ++ List.replicate (p.size - p.bytes.length) NUL ++ fresh).take n, n⟩

/-- The bytes the allocator leaves in the blocks it hands out while one request
is handled.  They are indeterminate in C, so every theorem either holds for all
of them or says which ones it needs. -/
structure Heap where
  /-- The block of `content = malloc(1)` in `handle_files_request`. -/
  content : List Char
  /-- The block of `name = malloc(1)` in `ls`. -/
  name : List Char
  /-- The block of `malloc(length)` in `cat`. -/
  file : List Char
  /-- The part gained by each `realloc` of `ls`, counted from 0. -/
  grown : Nat → List Char

/-- The first `n` bytes of a block; `none` when the block is shorter. -/
def load (p : Block) (n : Nat) : Option (List Char) :=
  if n ≤ p.size then some (p.bytes.take n ++ List.replicate (n - p.bytes.length) NUL)
  else none

/-- The characters of a byte sequence before its first terminator. -/
def until_nul : List Char → List Char
  | [] => []
  | c :: cs => if c = NUL then [] else c :: until_nul cs

/-- The C string a block holds: the characters before the first terminator. -/
def str (p : Block) : List Char := until_nul p.bytes

/-- The call `strlen(p)`: the number of characters before the first
terminator.  When the whole allocation is written and holds no terminator the C
scan leaves the allocation; the model then answers the block's size, the
characters it is sure to have counted (the handler only compares such an
answer with 0). -/
def strlen (p : Block) : Nat := (str p).length

/-- Writes `text` and a terminator into `p` from offset `off` on; `none` when
the write would run past the end of the allocation. -/
def store (p : Block) (off : Nat) (text : List Char) : Option Block :=
  if off + text.length + 1 ≤ p.size then
    some ⟨p.bytes.take off ++ List.replicate (off - p.bytes.length) NUL ++ text
      ++ NUL :: p.bytes.drop (off + text.length + 1), p.size⟩
  else none

/-- The call `strcat(dst, src)`. -/
def strcat (dst src : Block) : Option Block := store dst (strlen dst) (str src)

/-- Expansion of a format string whose only conversions are `%s`. -/
def format : List Char → List (List Char) → List Char
  | [], _ => []
  | [c], _ => [c]
  | c :: d :: rest, args =>
    if c = '%' ∧ d = 's' then
      match args with
      | [] => format rest []
      | a :: more => a ++ format rest more
    else c :: format (d :: rest) args

/-- The call `sprintf(buf, template, args...)` for `%s` conversions. -/
def sprintf (buf template : Block) (args : List (List Char)) : Option Block :=
  store buf 0 (format (str template) args)

/-- The offset of the first occurrence of `needle` in a C string. -/
def strstr_from (needle : List Char) : List Char → Option Nat
  | [] => if needle = [] then some 0 else none
  | c :: cs =>
    if needle.isPrefixOf (c :: cs) then some 0
    else (strstr_from needle cs).map (· + 1)

/-- The call `strstr(haystack, needle)`: `none` is the NULL result. -/
def strstr (haystack needle : Block) : Option Nat :=
  strstr_from (str needle) (str haystack)

/-- Conversion of a `size_t` value to `int` (32 bits, two's complement). -/
def to_int (n : Nat) : Int := ((n : Int) + 2 ^ 31) % 2 ^ 32 - 2 ^ 31

/-! ## The file system seen by `opendir` and `fopen` -/

/-- What a path names. -/
inductive Node
  | absent
  | file (readable : Bool) (contents : List Char)
  | dir (readable : Bool) (entries : List String)
  deriving DecidableEq, Repr

/-- The served file system: what each path names.  A directory lists its
entries in the order `readdir` enumerates them. -/
abbrev FileSystem := String → Node

/-- The call `opendir(dir)` followed by the `readdir` enumeration: `none` is
the NULL result. -/
def opendir (fs : FileSystem) (dir : String) : Option (List String) :=
  match fs dir with
  | Node.dir true entries => some entries
  | _ => none

/-- The call `fopen(filename, "rb")`, as the bytes `fread` can get from the
stream: `none` is the NULL result; a directory opens but yields no byte. -/
def fopen (fs : FileSystem) (filename : String) : Option (List Char) :=
  match fs filename with
  | Node.file true contents => some contents
  | Node.dir true _ => some []
  | _ => none

/-! ## Calls into the wire-format library and the operating system -/

/-- The two relay routines a proxy connection starts. -/
inductive Routine
  | handle_proxy_routine_c
  | handle_proxy_routine_p
  deriving DecidableEq, Repr

/-- The pair of descriptors handed to the relay routines. -/
structure sock_fd where
  p_fd : Int
  c_fd : Int
  deriving DecidableEq, Repr

/-- One observable call. -/
inductive Call
  | http_request_parse (fd : Int)
  | http_start_response (fd : Int) (status_code : Int)
  | http_send_header (fd : Int) (key value : String)
  | http_end_headers (fd : Int)
  | http_send_string (fd : Int) (data : String)
  | http_send_data (fd : Int) (data : List Char)
  | socket (result : Int)
  | gethostbyname2 (name : String)
  | connect (sockfd : Int) (port : Int)
  | pthread_create (routine : Routine) (arg : sock_fd)
  | pthread_join (routine : Routine)
  | read (fd : Int) (count : Nat)
  | close (fd : Int)
  | perror (s : String)
  | stderr (text : String)
  | stdout (text : String)
  deriving DecidableEq, Repr

/-- The request `http_request_parse` hands back. -/
structure http_request where
  method : String
  path : String
  deriving DecidableEq, Repr

/-! ## Files mode -/

/-- The function `cat`: the size read and the new value of `*result`.  The
bytes `fread` puts at the start of the new block replace what the allocator
left there. -/
def cat (fs : FileSystem) (heap : Heap) (filename : String) (result : Option Block) :
    Int × Option Block :=
  let length := 1 <<< 17
  match fopen fs filename with
  | none => (0, result)
  | some bytes =>
    let data := bytes.take length
    ((data.length : Int), some ⟨data ++ (malloc heap.file length).bytes.drop data.length, length⟩)

/-- The template of one line of a listing. -/
def line_template : Block := lit "<a href='%s'>%s</a>"

/-- The `readdir` loop of `ls`, over the entries still to come; `k` counts the
calls of `realloc` made so far. -/
def ls_loop (heap : Heap) : List String → Nat → Nat → Block → Block → Option Block
  | [], _, _, result, _ => some result
  | de :: more, k, size, result, name => do
    let size := size + (2 * de.length + strlen line_template + strlen (lit "<br />") + 1)
    let result := realloc (heap.grown k) result size
    let name := realloc (heap.grown (k + 1)) name (2 * de.length + strlen line_template)
    let name ← sprintf name line_template [de.toList, de.toList]
    let result ← strcat result name
    let result ← strcat result (lit "<br />")
    ls_loop heap more (k + 2) size result name

/-- The function `ls`: its return value and the new `*result`; `none` when a
write leaves its allocation. -/
def ls (fs : FileSystem) (heap : Heap) (dir : String) (result : Block) :
    Option (Int × Block) :=
  match opendir fs dir with
  | none => some (0, result)
  | some entries => do
    let header := lit "<h1>Index</h1>"
    let size := strlen header + 1
    let result := realloc (heap.grown 0) result size
    let result ← strcat result header
    let name := malloc heap.name 1
    let result ← ls_loop heap entries 1 size result name
    some (1, result)

/-- One line of a listing as the specification words it: a link to the entry
that carries the entry's name, followed by a line break. -/
def listing_line (name : String) : List Char :=
  "<a href='".toList ++ name.toList ++ "'>".toList ++ name.toList ++ "</a>".toList
    ++ "<br />".toList

/-- The lines of a listing, one per entry, in the order of the entries. -/
def listing_lines : List String → List Char
  | [] => []
  | name :: more => listing_line name ++ listing_lines more

/-- The listing of a directory as the specification words it: the heading and
one line per entry. -/
def listing (entries : List String) : List Char :=
  "<h1>Index</h1>".toList ++ listing_lines entries

/-- The function `serve_directory`: the mime type returned, `*result` and
`*size` afterwards. -/
def serve_directory (fs : FileSystem) (heap : Heap) (http_get_mime_type : String → String)
    (server_files_directory dir : String) (result : Block) (size : Int) :
    Option (String × Option Block × Int) := do
  let mime_type := http_get_mime_type "index.html"
  let (is_dir, result) ← ls fs heap dir result
  if is_dir = 0 then
    let (size, result) := cat fs heap dir (some result)
    let mime_type := if size ≠ 0 then http_get_mime_type dir else mime_type
    some (mime_type, result, size)
  else if strstr result (lit "index.html") = none then
    some (mime_type, some result, size)
  else
    let filename := server_files_directory ++ "/" ++ "index.html"
    let (size, index) := cat fs heap filename none
    if size ≠ 0 then some (mime_type, index, size)
    else some (mime_type, some result, size)

/-- The function `http200`; `none` when `size` bytes cannot be read from
`message`. -/
def http200 (fd : Int) (message : Block) (mime_type : String) (size : Int) :
    Option (List Call) :=
  let content_length := toString size
  if 0 ≤ size then
    (load message size.toNat).map fun data =>
      [Call.http_start_response fd 200,
        Call.http_send_header fd "Content-type" mime_type,
        Call.http_send_header fd "Content-Length" content_length,
        Call.http_send_header fd "Server" "httpserver/1.0",
        Call.http_end_headers fd,
        Call.http_send_data fd data]
  else none

/-- The function `http500`. -/
def http500 (fd : Int) : List Call :=
  [Call.http_start_response fd 500,
    Call.http_send_header fd "Content-Type" "text/html",
    Call.http_send_header fd "Server" "httpserver/1.0",
    Call.http_end_headers fd,
    Call.http_send_string fd "Internal server error."]

/-- The function `http404`. -/
def http404 (fd : Int) : List Call :=
  [Call.http_start_response fd 404,
    Call.http_send_header fd "Content-Type" "text/html",
    Call.http_send_header fd "Server" "httpserver/1.0",
    Call.http_end_headers fd,
    Call.http_send_string fd "<center><h1>404 - Not found!</h1></center>"]

/-- The function `handle_files_request`: the calls it makes, in order.
`request` is what `http_request_parse` returned (`none` for NULL) and `heap`
what the allocator leaves in the blocks it hands out; the result `none` stands
for undefined behaviour (a NULL dereference, an access outside an
allocation). -/
def handle_files_request (fs : FileSystem) (heap : Heap)
    (http_get_mime_type : String → String) (server_files_directory : String)
    (request : Option http_request) (fd : Int) : Option (List Call) := do
  let request ← request
  let full_path := server_files_directory ++ request.path
  let content := malloc heap.content 1
  let size : Int := 0
  let (mime_type, content, size) ←
    serve_directory fs heap http_get_mime_type server_files_directory full_path content size
  match content with
  | none => if size ≠ 0 then some (Call.http_request_parse fd :: http404 fd) else none
  | some content =>
    let size := if size ≠ 0 then size else to_int (strlen content)
    if strlen content = 0 then some (Call.http_request_parse fd :: http404 fd)
    else (http200 fd content mime_type size).map (Call.http_request_parse fd :: ·)

/-! ## What a trace shows -/

/-- The status codes of the responses started, in order. -/
def status_codes : List Call → List Int
  | [] => []
  | Call.http_start_response _ status_code :: more => status_code :: status_codes more
  | _ :: more => status_codes more

/-- The values sent for the header `key`, in order. -/
def header_values (key : String) : List Call → List String
  | [] => []
  | Call.http_send_header _ k value :: more =>
    if k = key then value :: header_values key more else header_values key more
  | _ :: more => header_values key more

/-- The bytes written to the descriptor `fd` as data, in order. -/
def written (fd : Int) : List Call → List Char
  | [] => []
  | Call.http_send_data d data :: more =>
    if d = fd then data ++ written fd more else written fd more
  | Call.http_send_string d data :: more =>
    if d = fd then data.toList ++ written fd more else written fd more
  | _ :: more => written fd more

/-- The descriptors the trace opened with `socket`, in order. -/
def opened : List Call → List Int
  | [] => []
  | Call.socket result :: more => if result = -1 then opened more else result :: opened more
  | _ :: more => opened more

/-- The descriptors the trace opened and did not close. -/
def left_open (calls : List Call) : List Int :=
  (opened calls).filter fun fd => Call.close fd ∉ calls

/-! ## Proxy mode -/

/-- The constant `MAX_BUFF`. -/
def MAX_BUFF : Nat := 8192

/-- The value of `ENXIO` in `errno.h`. -/
def ENXIO : Int := 6

/-- How a function ends: it returns to its caller, it ends the process with
`exit`, or its behaviour is undefined from there on. -/
inductive Ending
  | returned
  | exited (status : Int)
  | undefined
  deriving DecidableEq, Repr

/-- A run of a handler: the calls made, in order, and how it ended. -/
structure Run where
  calls : List Call
  ending : Ending
  deriving DecidableEq, Repr

/-- What the surroundings answer to `handle_proxy_request`. -/
structure ProxyEnv where
  /-- Whether `gethostbyname2` found the host (a non-NULL entry). -/
  target_dns_entry : Bool
  /-- The result of `socket`. -/
  client_socket_fd : Int
  /-- The result of `connect`. -/
  connection_status : Int
  /-- The value of `errno` after a failed `socket`, and its `strerror` text. -/
  errno : Int
  strerror : String
  /-- Whether each `pthread_create` started its thread. -/
  client_to_proxy_created : Bool
  proxy_to_client_created : Bool
  deriving DecidableEq, Repr

/-- The function `handle_proxy_request`, with the upstream taken from
`server_proxy_hostname` and `server_proxy_port`.  The relay routines run in
threads of their own; the run shows their creation and joining. -/
def handle_proxy_request (server_proxy_hostname : String) (server_proxy_port : Int)
    (env : ProxyEnv) (fd : Int) : Run :=
  let lookup := [Call.gethostbyname2 server_proxy_hostname, Call.socket env.client_socket_fd]
  if env.client_socket_fd = -1 then
    ⟨lookup ++ [Call.stderr ("Failed to create a new socket: error " ++ toString env.errno
      ++ ": " ++ env.strerror ++ "\n")], Ending.exited env.errno⟩
  else if env.target_dns_entry = false then
    ⟨lookup ++ [Call.stderr ("Cannot find host: " ++ server_proxy_hostname ++ "\n")],
      Ending.exited ENXIO⟩
  else
    let connected := lookup ++ [Call.connect env.client_socket_fd server_proxy_port]
    if env.connection_status < 0 then
      ⟨connected ++ [Call.http_request_parse fd,
        Call.http_start_response fd 502,
        Call.http_send_header fd "Content-Type" "text/html",
        Call.http_end_headers fd,
        Call.http_send_string fd "<center><h1>502 Bad Gateway</h1><hr></center>"],
        Ending.returned⟩
    else
      let s : sock_fd := { p_fd := fd, c_fd := env.client_socket_fd }
      let create_c := Call.pthread_create Routine.handle_proxy_routine_c s ::
        (if env.client_to_proxy_created then []
          else [Call.perror "Error create client_to_proxy thread"])
      let create_p := Call.pthread_create Routine.handle_proxy_routine_p s ::
        (if env.proxy_to_client_created then []
          else [Call.perror "Error create proxy_to_client thread"])
      let started := connected ++ create_c ++ create_p
      if env.proxy_to_client_created = false then ⟨started, Ending.undefined⟩
      else if env.client_to_proxy_created = false then
        ⟨started ++ [Call.pthread_join Routine.handle_proxy_routine_p], Ending.undefined⟩
      else
        ⟨started ++ [Call.pthread_join Routine.handle_proxy_routine_p,
          Call.pthread_join Routine.handle_proxy_routine_c], Ending.returned⟩

/-- The incoming side of a connection: the chunks the peer delivers, in order,
and what comes after them, a read error or the end of the stream. -/
structure Source where
  chunks : List (List Char)
  fails : Bool
  deriving DecidableEq, Repr

/-- The call `read(fd, buffer, count)` on a source: the value returned, the
bytes put into the buffer and the source afterwards. -/
def read (source : Source) (count : Nat) : Int × List Char × Source :=
  match source.chunks with
  | [] => if source.fails then (-1, [], source) else (0, [], source)
  | chunk :: more =>
    let data := chunk.take count
    ((data.length : Int), data,
      { source with chunks := if chunk.drop count = [] then more else chunk.drop count :: more })

/-- The function `handle_proxy_routine`: `source` is the incoming side of the
descriptor it reads.  The body of its `do ... while (0)` runs once. -/
def handle_proxy_routine (is_client : Int) (s : sock_fd) (source : Source) : List Call :=
  let c_fd := if is_client ≠ 0 then s.c_fd else s.p_fd
  let p_fd := if is_client ≠ 0 then s.p_fd else s.c_fd
  let (nread, buffer, _) := read source MAX_BUFF
  if nread < 0 then [Call.read p_fd MAX_BUFF, Call.perror "Can't not read"]
  else [Call.read p_fd MAX_BUFF, Call.stdout ("Send to " ++ toString c_fd ++ "\n"),
    Call.http_send_data c_fd (buffer.take nread.toNat)]

/-- The function `handle_proxy_routine_c`. -/
def handle_proxy_routine_c (sock : sock_fd) (source : Source) : List Call :=
  handle_proxy_routine 1 sock source

/-- The function `handle_proxy_routine_p`. -/
def handle_proxy_routine_p (sock : sock_fd) (source : Source) : List Call :=
  handle_proxy_routine 0 sock source

/-! ## Start-up flags -/

/-- Modelled from the spec: the worker pool and task queue of section 4.2,
which `serve_forever` sets up with `thread_pool_init` and feeds with
`thread_pool_add`; their code (`threadpool.c`, `wq.c`) is not among the
sources.  The state holds the connections accepted and not yet submitted, the
bounded queue of pending connections in enqueue order, one slot per worker
(idle, or the connection it is handling) and the connections whose handling is
complete, in order of completion. -/
structure Pool where
  capacity : Nat
  accepted : List Int
  queue : List Int
  workers : List (Option Int)
  handled : List Int
  deriving DecidableEq, Repr

/-- Modelled from the spec: `init(worker_count, queue, handler)` of section 4.2
(`thread_pool_init`, not among the sources) spawns `worker_count` workers, all
idle, on an empty queue of the given capacity; `connections` are the
descriptors the accept loop of `serve_forever` will hand to the pool, in
order. -/
def thread_pool_init (num_threads capacity : Nat) (connections : List Int) : Pool :=
  { capacity := capacity, accepted := connections, queue := [],
    workers := List.replicate num_threads none, handled := [] }

/-- Modelled from the spec: the moves of the acceptor and of the workers of
section 4.2 (their code is not among the sources).  `thread_pool_add` is the
acceptor submitting the next accepted connection; `dequeue` is a worker taking
the connection at the head of the queue; `finish` is the handler call of a
worker returning, after which the worker closes the connection and is idle
again. -/
inductive PoolMove
  | thread_pool_add
  | dequeue (worker : Nat)
  | finish (worker : Nat)
  deriving DecidableEq, Repr

/-- Modelled from the spec: one move of the pool of section 4.2 (code not
among the sources); `none` when the move cannot be made now: `submit` blocks
while the queue is at capacity, a worker blocks on an empty queue, and only a
worker that handles a connection can finish. -/
def pool_step (p : Pool) : PoolMove → Option Pool
  | PoolMove.thread_pool_add =>
    match p.accepted with
    | [] => none
    | connection :: more =>
      if p.queue.length < p.capacity then
        some { p with accepted := more, queue := p.queue ++ [connection] }
      else none
  | PoolMove.dequeue worker =>
    match p.workers[worker]?, p.queue with
    | some none, connection :: more =>
      some { p with queue := more, workers := p.workers.set worker (some connection) }
    | _, _ => none
  | PoolMove.finish worker =>
    match p.workers[worker]? with
    | some (some connection) =>
      some { p with workers := p.workers.set worker none,
                    handled := p.handled ++ [connection] }
    | _ => none

/-- Modelled from the spec: a run of the pool of section 4.2 (code not among
the sources), the moves made one after the other in the order the scheduler
picks them; `none` when some move of the schedule cannot be made. -/
def pool_run : List PoolMove → Pool → Option Pool
  | [], p => some p
  | move :: more, p =>
    match pool_step p move with
    | none => none
    | some p => pool_run more p

/-- The connections being handled, by worker. -/
def handling (p : Pool) : List Int := p.workers.reduceOption

/-! ## Concrete surroundings used to run the code -/

/-- Modelled from the spec: the MIME-type lookup by file extension
(`http_get_mime_type` of the wire-format library, which `httpserver.c` only
calls), cut down to the two answers the runs below meet. -/
def sample_mime_type (file_name : String) : String :=
  if ".html".toList.isSuffixOf file_name.toList then "text/html" else "text/plain"

/-- A heap in which every block handed out holds NUL bytes only. -/
def zeroed_heap : Heap :=
  { content := [], name := [], file := [], grown := fun _ => [] }

/-- A heap whose one-byte block for `content` holds the byte `x`, left there by
an earlier use of the memory. -/
def stale_heap : Heap :=
  { content := ['x'], name := [], file := [], grown := fun _ => [] }

/-- A served tree, rooted at `/www`. -/
def www : FileSystem := fun path =>
  if path = "/www/" then
    Node.dir true [".", "..", "a.txt", "backup", "blob.bin", "docs", "empty.txt", "index.html"]
  else if path = "/www/a.txt" then Node.file true "hello".toList
  else if path = "/www/backup" then Node.dir true [".", "..", "index.html.bak"]
  else if path = "/www/blob.bin" then Node.file true [NUL, 'A']
  else if path = "/www/docs" then Node.dir true [".", "..", "notes.txt"]
  else if path = "/www/empty.txt" then Node.file true []
  else if path = "/www/index.html" then Node.file true "<p>home</p>".toList
  else Node.absent

/-- A schedule for two workers and three connections: the third connection
waits for room in the queue and then for a free worker. -/
def three_connections_schedule : List PoolMove :=
  [PoolMove.thread_pool_add, PoolMove.dequeue 1, PoolMove.thread_pool_add,
    PoolMove.dequeue 0, PoolMove.finish 1, PoolMove.thread_pool_add, PoolMove.dequeue 1,
    PoolMove.finish 0, PoolMove.finish 1]

/-- The pool after `three_connections_schedule`. -/
def three_connections_handled : Pool :=
  { capacity := 1, accepted := [], queue := [], workers := [none, none],
    handled := [4, 5, 6] }

/-! ## Lemmas on C strings and on the functions of files mode -/

theorem ls_of_opendir_none {fs : FileSystem} (heap : Heap) {dir : String} (result : Block)
    (h : opendir fs dir = none) : ls fs heap dir result = some (0, result) := by
  simp [ls, h]

theorem serve_directory_of_opendir_none {fs : FileSystem} (heap : Heap)
    (mime : String → String) (root : String) {dir : String} (result : Block) (size : Int)
    (h : opendir fs dir = none) :
    serve_directory fs heap mime root dir result size =
      some (if (cat fs heap dir (some result)).1 ≠ 0 then mime dir else mime "index.html",
        (cat fs heap dir (some result)).2, (cat fs heap dir (some result)).1) := by
  simp [serve_directory, ls_of_opendir_none heap result h]

/-- A block that the allocator left with a NUL byte at its start holds the
empty string. -/
theorem str_malloc_of_nul (fresh : List Char) (n : Nat) (h : fresh.headD NUL = NUL) :
    str (malloc fresh n) = [] := by
  cases fresh with
  | nil => simp [str, malloc, until_nul]
  | cons a as =>
    simp only [List.headD_cons] at h
    subst h
    cases n with
    | zero => simp [str, malloc, until_nul]
    | succ m => simp [str, malloc, until_nul]

theorem strlen_malloc_of_nul (fresh : List Char) (n : Nat) (h : fresh.headD NUL = NUL) :
    strlen (malloc fresh n) = 0 := by
  simp [strlen, str_malloc_of_nul fresh n h]

theorem toString_natCast (n : Nat) : toString (n : Int) = toString n := rfl

theorem http200_natCast (fd : Int) (message : Block) (mime_type : String) (n : Nat)
    (h : n ≤ message.size) :
    http200 fd message mime_type (n : Int) =
      some [Call.http_start_response fd 200,
        Call.http_send_header fd "Content-type" mime_type,
        Call.http_send_header fd "Content-Length" (toString n),
        Call.http_send_header fd "Server" "httpserver/1.0",
        Call.http_end_headers fd,
        Call.http_send_data fd
          (message.bytes.take n ++ List.replicate (n - message.bytes.length) NUL)] := by
  simp only [http200, load, Int.toNat_ofNat, h, if_true, Int.ofNat_nonneg, Option.map_some',
    toString_natCast]

theorem cat_of_fopen_some {fs : FileSystem} (heap : Heap) {filename : String} {c : List Char}
    (result : Option Block) (h : fopen fs filename = some c) :
    cat fs heap filename result =
      ((((c.take 131072).length : Nat) : Int),
        some (Block.mk (c.take 131072 ++ (heap.file.take 131072).drop (c.take 131072).length)
          131072)) := by
  simp only [cat, h]
  rfl

theorem cat_of_fopen_none {fs : FileSystem} (heap : Heap) {filename : String}
    (result : Option Block) (h : fopen fs filename = none) :
    cat fs heap filename result = (0, result) := by
  simp only [cat, h]

/-- No byte to serve, and the block read for the test of emptiness begins with
a NUL byte: the 404 response. -/
theorem files_404_of_no_bytes {fs : FileSystem} (heap : Heap) (mime : String → String)
    (root : String) (request : http_request) (fd : Int)
    (hdir : opendir fs (root ++ request.path) = none)
    (hfile : (fopen fs (root ++ request.path) = none ∧ heap.content.headD NUL = NUL)
      ∨ (fopen fs (root ++ request.path) = some [] ∧ heap.file.headD NUL = NUL)) :
    handle_files_request fs heap mime root (some request) fd =
      some (Call.http_request_parse fd :: http404 fd) := by
  rcases hfile with ⟨h, hz⟩ | ⟨h, hz⟩
  · simp [handle_files_request, serve_directory_of_opendir_none heap mime root _ _ hdir,
      cat_of_fopen_none heap _ h, strlen_malloc_of_nul _ 1 hz]
  · have hs : strlen (Block.mk (heap.file.take 131072) 131072) = 0 :=
      strlen_malloc_of_nul heap.file 131072 hz
    simp [handle_files_request, serve_directory_of_opendir_none heap mime root _ _ hdir,
      cat_of_fopen_some heap _ h, hs]

theorem strlen_pos_of_head {c : List Char} (n k : Nat) (rest : List Char) (hne : c ≠ [])
    (hhead : c.head? ≠ some NUL) (hn : 0 < n) : strlen ⟨c.take n ++ rest, k⟩ ≠ 0 := by
  cases c with
  | nil => exact absurd rfl hne
  | cons a as =>
    have ha : a ≠ NUL := by simpa using hhead
    obtain ⟨m, rfl⟩ : ∃ m, n = m + 1 := ⟨n - 1, by omega⟩
    simp [strlen, str, until_nul, ha]

theorem strlen_zero_of_head {c : List Char} (n k : Nat) (rest : List Char)
    (hhead : c.head? = some NUL) (hn : 0 < n) : strlen ⟨c.take n ++ rest, k⟩ = 0 := by
  cases c with
  | nil => simp at hhead
  | cons a as =>
    have ha : a = NUL := by simpa using hhead
    obtain ⟨m, rfl⟩ : ∃ m, n = m + 1 := ⟨n - 1, by omega⟩
    simp [strlen, str, until_nul, ha]

theorem length_take_ne_zero {c : List Char} (hne : c ≠ []) :
    (((c.take 131072).length : Nat) : Int) ≠ 0 := by
  cases c with
  | nil => exact absurd rfl hne
  | cons a as =>
    simp only [ne_eq, Int.natCast_eq_zero, List.length_eq_zero]
    exact List.cons_ne_nil _ _

/-- A file whose first byte is NUL is answered with the 404 response, whatever
the allocator left in the blocks. -/
theorem files_404_of_leading_nul {fs : FileSystem} (heap : Heap) (mime : String → String)
    (root : String) (request : http_request) (fd : Int) (c : List Char)
    (hdir : opendir fs (root ++ request.path) = none)
    (hfile : fopen fs (root ++ request.path) = some c)
    (hhead : c.head? = some NUL) :
    handle_files_request fs heap mime root (some request) fd =
      some (Call.http_request_parse fd :: http404 fd) := by
  have hs := strlen_zero_of_head (c := c) 131072 131072
    ((heap.file.take 131072).drop (c.take 131072).length) hhead (by norm_num)
  simp only [handle_files_request, Option.bind_eq_bind, Option.some_bind,
    serve_directory_of_opendir_none heap mime root _ _ hdir, cat_of_fopen_some heap _ hfile, hs,
    if_true]

theorem files_200_of_bytes {fs : FileSystem} (heap : Heap) (mime : String → String)
    (root : String) (request : http_request) (fd : Int) (c : List Char)
    (hdir : opendir fs (root ++ request.path) = none)
    (hfile : fopen fs (root ++ request.path) = some c)
    (hne : c ≠ []) (hhead : c.head? ≠ some NUL) :
    handle_files_request fs heap mime root (some request) fd =
      some [Call.http_request_parse fd,
        Call.http_start_response fd 200,
        Call.http_send_header fd "Content-type" (mime (root ++ request.path)),
        Call.http_send_header fd "Content-Length" (toString (min c.length 131072)),
        Call.http_send_header fd "Server" "httpserver/1.0",
        Call.http_end_headers fd,
        Call.http_send_data fd (c.take 131072)] := by
  have hlen := length_take_ne_zero hne
  have hs := strlen_pos_of_head (c := c) 131072 131072
    ((heap.file.take 131072).drop (c.take 131072).length) hne hhead (by norm_num)
  have hsize : (c.take 131072).length ≤ (Block.mk (c.take 131072 ++
      (heap.file.take 131072).drop (c.take 131072).length) 131072).size := by
    simp
  have h200 := http200_natCast fd (Block.mk (c.take 131072 ++
      (heap.file.take 131072).drop (c.take 131072).length) 131072)
    (mime (root ++ request.path)) (c.take 131072).length hsize
  have hdata : (c.take 131072 ++ (heap.file.take 131072).drop (c.take 131072).length).take
      (c.take 131072).length ++ List.replicate ((c.take 131072).length - (c.take 131072 ++
        (heap.file.take 131072).drop (c.take 131072).length).length) NUL = c.take 131072 := by
    rw [List.take_left, Nat.sub_eq_zero_of_le (by simp), List.replicate_zero, List.append_nil]
  rw [hdata] at h200
  simp only [handle_files_request, Option.bind_eq_bind, Option.some_bind,
    serve_directory_of_opendir_none heap mime root _ _ hdir, cat_of_fopen_some heap _ hfile,
    hlen, hs, ne_eq, not_false_eq_true, if_true, if_false, h200, Option.map_some']
  simp [Nat.min_comm]

theorem until_nul_append_nul (t rest : List Char) (h : NUL ∉ t) :
    until_nul (t ++ NUL :: rest) = t := by
  induction t with
  | nil => simp [until_nul]
  | cons a as ih =>
    have ha : a ≠ NUL := fun e => h (by simp [e])
    have has : NUL ∉ as := fun m => h (by simp [m])
    simp [until_nul, ha, ih has]

theorem until_nul_of_not_mem (t : List Char) (h : NUL ∉ t) : until_nul t = t := by
  induction t with
  | nil => rfl
  | cons a as ih =>
    have ha : a ≠ NUL := fun e => h (by simp [e])
    have has : NUL ∉ as := fun m => h (by simp [m])
    simp [until_nul, ha, ih has]

theorem nul_not_mem_until_nul (l : List Char) : NUL ∉ until_nul l := by
  induction l with
  | nil => simp [until_nul]
  | cons a as ih =>
    by_cases ha : a = NUL
    · simp [until_nul, ha]
    · simp only [until_nul, ha, if_false, List.mem_cons, not_or]
      exact ⟨fun e => ha e.symm, ih⟩

theorem until_nul_length_le (l : List Char) : (until_nul l).length ≤ l.length := by
  induction l with
  | nil => simp [until_nul]
  | cons a as ih =>
    by_cases ha : a = NUL
    · simp [until_nul, ha]
    · simp only [until_nul, ha, if_false, List.length_cons]
      omega

theorem take_until_nul_length (l : List Char) :
    l.take (until_nul l).length = until_nul l := by
  induction l with
  | nil => simp [until_nul]
  | cons a as ih =>
    by_cases ha : a = NUL
    · simp [until_nul, ha]
    · simp only [until_nul, ha, if_false, List.length_cons, List.take_succ_cons, ih]

theorem until_nul_take (l : List Char) (n : Nat) (h : (until_nul l).length ≤ n) :
    until_nul (l.take n) = until_nul l := by
  induction l generalizing n with
  | nil => simp [until_nul]
  | cons a as ih =>
    by_cases ha : a = NUL
    · cases n with
      | zero => simp [until_nul, ha]
      | succ m => simp [until_nul, ha]
    · simp only [until_nul, ha, if_false, List.length_cons] at h
      obtain ⟨m, rfl⟩ : ∃ m, n = m + 1 := ⟨n - 1, by omega⟩
      simp only [List.take_succ_cons, until_nul, ha, if_false, ih m (by omega)]

theorem nul_not_mem_str (p : Block) : NUL ∉ str p := nul_not_mem_until_nul _

theorem strlen_le_bytes (p : Block) : strlen p ≤ p.bytes.length := until_nul_length_le _

theorem until_nul_append_of_lt (l m : List Char) (k : Nat)
    (h : (until_nul l).length < l.length + k) :
    until_nul (l ++ List.replicate k NUL ++ m) = until_nul l := by
  induction l with
  | nil =>
    obtain ⟨j, rfl⟩ : ∃ j, k = j + 1 := ⟨k - 1, by simp [until_nul] at h; omega⟩
    simp [until_nul, List.replicate_succ]
  | cons a as ih =>
    by_cases ha : a = NUL
    · simp [until_nul, ha]
    · simp only [until_nul, ha, if_false, List.length_cons] at h
      have e := ih (by omega)
      show until_nul (a :: (as ++ List.replicate k NUL ++ m)) = until_nul (a :: as)
      simp only [until_nul, ha, if_false, e]

/-- A string terminated inside its block survives `realloc` to a size that holds
it, whatever bytes the part gained holds. -/
theorem str_realloc (fresh : List Char) (p : Block) (n : Nat) (hterm : strlen p < p.size)
    (h : strlen p ≤ n) : str (realloc fresh p n) = str p := by
  have hlt : (until_nul p.bytes).length < p.bytes.length + (p.size - p.bytes.length) := by
    have h1 : (until_nul p.bytes).length < p.size := hterm
    omega
  have h2 := until_nul_append_of_lt p.bytes fresh (p.size - p.bytes.length) hlt
  show until_nul ((p.bytes ++ List.replicate (p.size - p.bytes.length) NUL ++ fresh).take n)
    = until_nul p.bytes
  rw [until_nul_take _ _ (by rw [h2]; exact h), h2]

theorem size_realloc (fresh : List Char) (p : Block) (n : Nat) :
    (realloc fresh p n).size = n := rfl

theorem store_spec (p : Block) (text : List Char) (hnul : NUL ∉ text)
    (hfit : strlen p + text.length + 1 ≤ p.size) :
    ∃ q, store p (strlen p) text = some q ∧ str q = str p ++ text ∧ q.size = p.size := by
  refine ⟨_, if_pos hfit, ?_, rfl⟩
  have h0 : strlen p - p.bytes.length = 0 := Nat.sub_eq_zero_of_le (strlen_le_bytes p)
  have h1 : p.bytes.take (strlen p) = str p := take_until_nul_length _
  show until_nul (p.bytes.take (strlen p) ++ List.replicate (strlen p - p.bytes.length) NUL
    ++ text ++ NUL :: p.bytes.drop (strlen p + text.length + 1)) = str p ++ text
  rw [h0, h1, List.replicate_zero, List.append_nil]
  exact until_nul_append_nul _ _ (by
    simp only [List.mem_append, not_or]
    exact ⟨nul_not_mem_str p, hnul⟩)

theorem strcat_spec (dst src : Block) (hfit : strlen dst + strlen src + 1 ≤ dst.size) :
    ∃ q, strcat dst src = some q ∧ str q = str dst ++ str src ∧ q.size = dst.size :=
  store_spec dst (str src) (nul_not_mem_str src) hfit

theorem sprintf_spec (buf template : Block) (args : List (List Char))
    (hnul : NUL ∉ format (str template) args)
    (hfit : (format (str template) args).length + 1 ≤ buf.size) :
    ∃ q, sprintf buf template args = some q ∧ str q = format (str template) args := by
  refine ⟨_, if_pos (by omega), ?_⟩
  show until_nul (buf.bytes.take 0 ++ List.replicate (0 - buf.bytes.length) NUL
    ++ format (str template) args
    ++ NUL :: buf.bytes.drop (0 + (format (str template) args).length + 1)) = _
  rw [List.take_zero, Nat.zero_sub, List.replicate_zero, List.nil_append, List.nil_append]
  exact until_nul_append_nul _ _ hnul

theorem str_line_template : str line_template = "<a href='%s'>%s</a>".toList := by decide
theorem strlen_line_template : strlen line_template = 19 := by decide
theorem str_br : str (lit "<br />") = "<br />".toList := by decide

theorem format_line (d : List Char) :
    format "<a href='%s'>%s</a>".toList [d, d]
      = "<a href='".toList ++ d ++ "'>".toList ++ d ++ "</a>".toList := by
  simp [format]

theorem strlen_def (p : Block) : strlen p = (str p).length := rfl

theorem nul_not_mem_format_line (d : List Char) (h : NUL ∉ d) :
    NUL ∉ format (str line_template) [d, d] := by
  rw [str_line_template, format_line]
  simp only [List.mem_append, not_or]
  refine ⟨⟨⟨⟨by decide, h⟩, by decide⟩, h⟩, by decide⟩

theorem length_format_line (d : List Char) :
    (format (str line_template) [d, d]).length = 2 * d.length + 15 := by
  rw [str_line_template, format_line]
  simp only [List.length_append]
  have h1 : "<a href='".toList.length = 9 := by decide
  have h2 : "'>".toList.length = 2 := by decide
  have h3 : "</a>".toList.length = 4 := by decide
  omega

theorem ls_loop_spec (heap : Heap) (entries : List String)
    (hnames : ∀ e ∈ entries, NUL ∉ e.toList) :
    ∀ (k size : Nat) (result name : Block), result.size = size → strlen result + 1 ≤ size →
      ∃ q, ls_loop heap entries k size result name = some q ∧
        str q = str result ++ listing_lines entries ∧ strlen q + 1 ≤ q.size := by
  induction entries with
  | nil =>
    intro k size result name hsize hlen
    exact ⟨result, rfl, by simp [listing_lines], by rw [hsize]; exact hlen⟩
  | cons de more ih =>
    intro k size result name hsize hlen
    have hde : NUL ∉ de.toList := hnames de (by simp)
    have hlen_de : de.length = de.toList.length := rfl
    obtain ⟨name1, hname1, hstr1⟩ := sprintf_spec
      (realloc (heap.grown (k + 1)) name (2 * de.length + strlen line_template)) line_template
      [de.toList, de.toList] (nul_not_mem_format_line _ hde)
      (by rw [length_format_line, size_realloc, strlen_line_template]; omega)
    have hl1 : strlen name1 = 2 * de.toList.length + 15 := by
      rw [strlen_def name1, hstr1, length_format_line]
    have hbr : strlen (lit "<br />") = 6 := by decide
    have hr0 : str (realloc (heap.grown k) result (size + (2 * de.length + strlen line_template
        + strlen (lit "<br />") + 1))) = str result :=
      str_realloc _ _ _ (by omega) (by omega)
    have hl0 : strlen (realloc (heap.grown k) result (size + (2 * de.length
        + strlen line_template + strlen (lit "<br />") + 1))) = strlen result :=
      congrArg List.length hr0
    obtain ⟨r1, hr1, hstr_r1, hsize1⟩ := strcat_spec
      (realloc (heap.grown k) result (size + (2 * de.length + strlen line_template
        + strlen (lit "<br />") + 1))) name1
      (by rw [hl0, hl1, size_realloc, strlen_line_template, hbr]; omega)
    have hlr1 : strlen r1 = strlen result + (2 * de.toList.length + 15) := by
      rw [strlen_def r1, hstr_r1, hr0, List.length_append, hstr1, length_format_line,
        strlen_def result]
    obtain ⟨r2, hr2, hstr_r2, hsize2⟩ := strcat_spec r1 (lit "<br />")
      (by rw [hlr1, hsize1, size_realloc, strlen_line_template, hbr]; omega)
    have hlr2 : strlen r2 = strlen result + (2 * de.toList.length + 21) := by
      rw [strlen_def r2, hstr_r2, List.length_append, ← strlen_def r1, ← strlen_def, hlr1, hbr]
      omega
    obtain ⟨q, hq, hstrq, hfit⟩ := ih (fun e he => hnames e (by simp [he])) (k + 2)
      (size + (2 * de.length + strlen line_template + strlen (lit "<br />") + 1)) r2 name1
      (by rw [hsize2, hsize1, size_realloc])
      (by rw [hlr2, strlen_line_template, hbr]; omega)
    refine ⟨q, ?_, ?_, hfit⟩
    · simp only [ls_loop, Option.bind_eq_bind, hname1, Option.some_bind, hr1, hr2, hq]
    · rw [hstrq, hstr_r2, hstr_r1, hr0, hstr1, str_line_template, format_line, str_br]
      simp [listing_lines, listing_line, List.append_assoc]

/-- On a directory, `ls` leaves the listing in `*result` when the block it is
handed holds the empty string, whatever the allocator left in the other
blocks. -/
theorem ls_spec {fs : FileSystem} (heap : Heap) {dir : String} {entries : List String}
    (result : Block) (hdir : opendir fs dir = some entries)
    (hnames : ∀ e ∈ entries, NUL ∉ e.toList) (hres : str result = [])
    (hsz : 0 < result.size) :
    ∃ q, ls fs heap dir result = some (1, q) ∧ str q = listing entries ∧
      strlen q + 1 ≤ q.size := by
  have hh : strlen (lit "<h1>Index</h1>") = 14 := by decide
  have hs : str (lit "<h1>Index</h1>") = "<h1>Index</h1>".toList := by decide
  have hl : strlen result = 0 := by rw [strlen_def result, hres]; rfl
  have hr0 : str (realloc (heap.grown 0) result (strlen (lit "<h1>Index</h1>") + 1)) = [] := by
    rw [str_realloc _ _ _ (by omega) (by omega), hres]
  obtain ⟨r1, hr1, hstr1, hsize1⟩ := strcat_spec
    (realloc (heap.grown 0) result (strlen (lit "<h1>Index</h1>") + 1)) (lit "<h1>Index</h1>")
    (by rw [strlen_def (realloc _ _ _), hr0, size_realloc]; simp)
  rw [hr0, hs, List.nil_append] at hstr1
  obtain ⟨q, hq, hstrq, hfit⟩ := ls_loop_spec heap entries hnames 1
    (strlen (lit "<h1>Index</h1>") + 1) r1
    (malloc heap.name 1) (by rw [hsize1, size_realloc])
    (by rw [strlen_def r1, hstr1, hh]; decide)
  refine ⟨q, ?_, ?_, hfit⟩
  · simp only [ls, hdir, Option.bind_eq_bind, hr1, Option.some_bind, hq]
  · rw [hstrq, hstr1]; rfl

theorem strstr_from_ne_none (needle : List Char) :
    ∀ hay : List Char, needle <:+: hay → strstr_from needle hay ≠ none := by
  intro hay
  induction hay with
  | nil =>
    intro h
    have : needle = [] := List.eq_nil_of_infix_nil h
    simp [strstr_from, this]
  | cons c cs ih =>
    intro h
    rcases List.infix_cons_iff.mp h with hp | hi
    · have : needle.isPrefixOf (c :: cs) = true := List.isPrefixOf_iff_prefix.mpr hp
      simp [strstr_from, this]
    · by_cases hp : needle.isPrefixOf (c :: cs) = true
      · simp [strstr_from, hp]
      · have := ih hi
        simp only [strstr_from, hp, Bool.false_eq_true, if_false, ne_eq, Option.map_eq_none']
        exact this

theorem infix_listing_lines (needle : List Char) (entries : List String) (e : String)
    (he : e ∈ entries) (h : needle <:+: e.toList) : needle <:+: listing_lines entries := by
  induction entries with
  | nil => simp at he
  | cons a as ih =>
    rcases List.mem_cons.mp he with rfl | hm
    · have h1 : needle <:+: listing_line e := by
        unfold listing_line
        exact List.IsInfix.trans h ⟨"<a href='".toList, "'>".toList ++ e.toList ++ "</a>".toList
          ++ "<br />".toList, by simp [List.append_assoc]⟩
      exact List.IsInfix.trans h1 (List.infix_append' [] _ _)
    · exact List.IsInfix.trans (ih hm) ⟨listing_line a, [], by simp [listing_lines]⟩

theorem infix_listing (needle : List Char) (entries : List String) (e : String)
    (he : e ∈ entries) (h : needle <:+: e.toList) : needle <:+: listing entries :=
  List.IsInfix.trans (infix_listing_lines needle entries e he h)
    ⟨"<h1>Index</h1>".toList, [], by simp [listing]⟩

theorem str_lit_index : str (lit "index.html") = "index.html".toList := by decide

theorem opendir_of_dir {fs : FileSystem} {dir : String} {entries : List String}
    (h : fs dir = Node.dir true entries) : opendir fs dir = some entries := by
  simp [opendir, h]

theorem fopen_of_file {fs : FileSystem} {filename : String} {c : List Char}
    (h : fs filename = Node.file true c) : fopen fs filename = some c := by
  simp [fopen, h]

theorem index_path (root : String) : root ++ "/" ++ "index.html" = root ++ "/index.html" := by
  rw [String.append_assoc]; rfl

theorem files_200_of_index {fs : FileSystem} (heap : Heap) (mime : String → String)
    (root : String) (request : http_request) (fd : Int) (entries : List String) (c : List Char)
    (hcontent : heap.content.headD NUL = NUL)
    (hdir : opendir fs (root ++ request.path) = some entries)
    (hnames : ∀ e ∈ entries, NUL ∉ e.toList)
    (hentry : ∃ e ∈ entries, "index.html".toList <:+: e.toList)
    (hfile : fopen fs (root ++ "/index.html") = some c)
    (hne : c ≠ []) (hhead : c.head? ≠ some NUL) :
    handle_files_request fs heap mime root (some request) fd =
      some [Call.http_request_parse fd,
        Call.http_start_response fd 200,
        Call.http_send_header fd "Content-type" (mime "index.html"),
        Call.http_send_header fd "Content-Length" (toString (min c.length 131072)),
        Call.http_send_header fd "Server" "httpserver/1.0",
        Call.http_end_headers fd,
        Call.http_send_data fd (c.take 131072)] := by
  obtain ⟨q, hq, hstrq, _⟩ := ls_spec heap (malloc heap.content 1) hdir hnames
    (str_malloc_of_nul _ 1 hcontent) Nat.one_pos
  obtain ⟨e, he, hinf⟩ := hentry
  have hfound : strstr q (lit "index.html") ≠ none := by
    unfold strstr
    rw [str_lit_index, hstrq]
    exact strstr_from_ne_none _ _ (infix_listing _ entries e he hinf)
  have hlen := length_take_ne_zero hne
  have hs := strlen_pos_of_head (c := c) 131072 131072
    ((heap.file.take 131072).drop (c.take 131072).length) hne hhead (by norm_num)
  have hsize : (c.take 131072).length ≤ (Block.mk (c.take 131072 ++
      (heap.file.take 131072).drop (c.take 131072).length) 131072).size := by
    simp
  have h200 := http200_natCast fd (Block.mk (c.take 131072 ++
      (heap.file.take 131072).drop (c.take 131072).length) 131072)
    (mime "index.html") (c.take 131072).length hsize
  have hdata : (c.take 131072 ++ (heap.file.take 131072).drop (c.take 131072).length).take
      (c.take 131072).length ++ List.replicate ((c.take 131072).length - (c.take 131072 ++
        (heap.file.take 131072).drop (c.take 131072).length).length) NUL = c.take 131072 := by
    rw [List.take_left, Nat.sub_eq_zero_of_le (by simp), List.replicate_zero, List.append_nil]
  rw [hdata] at h200
  have hfile2 : fopen fs (root ++ "/" ++ "index.html") = some c := by rw [index_path]; exact hfile
  simp only [handle_files_request, serve_directory, Option.bind_eq_bind, Option.some_bind, hq,
    one_ne_zero, if_false, hfound, cat_of_fopen_some heap _ hfile2, hlen, hs,
    ne_eq, not_false_eq_true, if_true, h200, Option.map_some']
  simp [Nat.min_comm]

theorem prefix_of_prefix_append_cons {N A Y : List Char} {d : Char} (hd : d ∉ N)
    (h : N <+: A ++ d :: Y) : N <+: A := by
  rcases List.prefix_or_prefix_of_prefix h (List.prefix_append A (d :: Y)) with hp | hp
  · exact hp
  · obtain ⟨r, rfl⟩ := hp
    rw [List.prefix_append_right_inj] at h
    cases r with
    | nil => simp
    | cons x r' =>
      have hx : x = d := by
        obtain ⟨t, ht⟩ := h
        simp at ht
        exact ht.1
      exact absurd (by simp [hx]) hd

theorem infix_split {N : List Char} {d : Char} (hd : d ∉ N) :
    ∀ (X Y : List Char), N <:+: X ++ d :: Y → N <:+: X ∨ N <:+: Y := by
  intro X
  induction X with
  | nil =>
    intro Y h
    rcases List.infix_cons_iff.mp h with hp | hi
    · exact Or.inl (prefix_of_prefix_append_cons (A := []) hd hp).isInfix
    · exact Or.inr hi
  | cons x X' ih =>
    intro Y h
    rcases List.infix_cons_iff.mp h with hp | hi
    · exact Or.inl (prefix_of_prefix_append_cons (A := x :: X') hd hp).isInfix
    · rcases ih Y hi with h1 | h2
      · exact Or.inl (List.infix_cons h1)
      · exact Or.inr h2

theorem index_infix_listing_line (e : String) (rest : List Char)
    (h : "index.html".toList <:+: listing_line e ++ rest) :
    "index.html".toList <:+: e.toList ∨ "index.html".toList <:+: rest := by
  have q : '\'' ∉ "index.html".toList := by decide
  have lt : '<' ∉ "index.html".toList := by decide
  have gt : '>' ∉ "index.html".toList := by decide
  have e0 : listing_line e ++ rest = "<a href=".toList ++ '\'' :: (e.toList ++ '\'' ::
      ([] ++ '>' :: (e.toList ++ '<' :: ("/a".toList ++ '>' :: ([] ++ '<' ::
        ("br /".toList ++ '>' :: rest)))))) := by
    simp [listing_line, List.append_assoc]
  rw [e0] at h
  rcases infix_split q _ _ h with h | h
  · exact absurd h (by decide)
  rcases infix_split q _ _ h with h | h
  · exact Or.inl h
  rcases infix_split gt _ _ h with h | h
  · exact absurd h (by decide)
  rcases infix_split lt _ _ h with h | h
  · exact Or.inl h
  rcases infix_split gt _ _ h with h | h
  · exact absurd h (by decide)
  rcases infix_split lt _ _ h with h | h
  · exact absurd h (by decide)
  rcases infix_split gt _ _ h with h | h
  · exact absurd h (by decide)
  exact Or.inr h

theorem index_infix_listing_lines (entries : List String)
    (h : "index.html".toList <:+: listing_lines entries) :
    ∃ e ∈ entries, "index.html".toList <:+: e.toList := by
  induction entries with
  | nil => exact absurd h (by decide)
  | cons a as ih =>
    rcases index_infix_listing_line a (listing_lines as) h with h1 | h2
    · exact ⟨a, by simp, h1⟩
    · obtain ⟨e, he, hi⟩ := ih h2
      exact ⟨e, by simp [he], hi⟩

theorem index_infix_listing (entries : List String)
    (h : "index.html".toList <:+: listing entries) :
    ∃ e ∈ entries, "index.html".toList <:+: e.toList := by
  have lt : '<' ∉ "index.html".toList := by decide
  have gt : '>' ∉ "index.html".toList := by decide
  have e0 : listing entries = [] ++ '<' :: ("h1".toList ++ '>' :: ("Index".toList ++ '<' ::
      ("/h1".toList ++ '>' :: listing_lines entries))) := by
    simp [listing]
  rw [e0] at h
  rcases infix_split lt _ _ h with h | h
  · exact absurd h (by decide)
  rcases infix_split gt _ _ h with h | h
  · exact absurd h (by decide)
  rcases infix_split lt _ _ h with h | h
  · exact absurd h (by decide)
  rcases infix_split gt _ _ h with h | h
  · exact absurd h (by decide)
  exact index_infix_listing_lines entries h

theorem infix_of_strstr_from (needle : List Char) :
    ∀ hay : List Char, strstr_from needle hay ≠ none → needle <:+: hay := by
  intro hay
  induction hay with
  | nil =>
    intro h
    by_cases hn : needle = []
    · rw [hn]
    · simp [strstr_from, hn] at h
  | cons c cs ih =>
    intro h
    by_cases hp : needle.isPrefixOf (c :: cs) = true
    · exact (List.isPrefixOf_iff_prefix.mp hp).isInfix
    · simp only [strstr_from, hp, Bool.false_eq_true, if_false, ne_eq, Option.map_eq_none'] at h
      exact List.infix_cons (ih h)

theorem to_int_of_lt (n : Nat) (h : n < 2 ^ 31) : to_int n = (n : Int) := by
  unfold to_int
  have h2 : (n : Int) < 2 ^ 31 := by exact_mod_cast h
  norm_num at h2 ⊢
  omega

theorem load_str (q : Block) :
    q.bytes.take (strlen q) ++ List.replicate (strlen q - q.bytes.length) NUL = str q := by
  rw [Nat.sub_eq_zero_of_le (strlen_le_bytes q), List.replicate_zero, List.append_nil]
  exact take_until_nul_length _

/-- The answer when `serve_directory` hands back the listing of a directory:
the one-byte block of `content` has to begin with a NUL byte, the other blocks
may hold anything. -/
theorem files_200_of_listing {fs : FileSystem} (heap : Heap) (mime : String → String)
    (root : String) (request : http_request) (fd : Int) (entries : List String)
    (hcontent : heap.content.headD NUL = NUL)
    (hdir : opendir fs (root ++ request.path) = some entries)
    (hnames : ∀ e ∈ entries, NUL ∉ e.toList)
    (hindex : (∀ e ∈ entries, ¬ "index.html".toList <:+: e.toList)
      ∨ fopen fs (root ++ "/index.html") = none ∨ fopen fs (root ++ "/index.html") = some [])
    (hsize : (listing entries).length < 2 ^ 31) :
    handle_files_request fs heap mime root (some request) fd =
      some [Call.http_request_parse fd,
        Call.http_start_response fd 200,
        Call.http_send_header fd "Content-type" (mime "index.html"),
        Call.http_send_header fd "Content-Length" (toString (listing entries).length),
        Call.http_send_header fd "Server" "httpserver/1.0",
        Call.http_end_headers fd,
        Call.http_send_data fd (listing entries)] := by
  obtain ⟨q, hq, hstrq, hfit⟩ := ls_spec heap (malloc heap.content 1) hdir hnames
    (str_malloc_of_nul _ 1 hcontent) Nat.one_pos
  have hlen : strlen q = (listing entries).length := by rw [strlen_def, hstrq]
  have hpos : strlen q ≠ 0 := by
    rw [hlen]
    simp [listing]
  have hserve : serve_directory fs heap mime root (root ++ request.path)
      (malloc heap.content 1) 0 = some (mime "index.html", some q, 0) := by
    by_cases hfound : strstr q (lit "index.html") = none
    · simp only [serve_directory, Option.bind_eq_bind, Option.some_bind, hq, one_ne_zero,
        if_false, hfound, if_true]
    · have hinf : "index.html".toList <:+: listing entries := by
        have := infix_of_strstr_from _ _ hfound
        rwa [str_lit_index, hstrq] at this
      obtain ⟨e, he, hi⟩ := index_infix_listing entries hinf
      rcases hindex with h | h | h
      · exact absurd hi (h e he)
      · simp only [serve_directory, Option.bind_eq_bind, Option.some_bind, hq, one_ne_zero,
          if_false, hfound, index_path, cat_of_fopen_none heap _ h, ne_eq, not_true_eq_false]
      · simp only [serve_directory, Option.bind_eq_bind, Option.some_bind, hq, one_ne_zero,
          if_false, hfound, index_path, cat_of_fopen_some heap _ h, List.take_nil,
          List.length_nil, Nat.cast_zero, ne_eq, not_true_eq_false, if_false]
  have h200 := http200_natCast fd q (mime "index.html") (strlen q) (by omega)
  rw [load_str q, hstrq, hlen] at h200
  have hpos' : (listing entries).length ≠ 0 := hlen ▸ hpos
  simp only [handle_files_request, Option.bind_eq_bind, Option.some_bind, hserve, ne_eq,
    not_true_eq_false, if_false, hlen, hpos', to_int_of_lt _ hsize, h200, Option.map_some']

/-- A directory asked for while the one-byte block of `content` begins with a
byte other than NUL: `strcat` in `ls` writes past the end of the block it was
handed, which is undefined. -/
theorem files_undefined_of_dir_of_stale_content {fs : FileSystem} (heap : Heap)
    (mime : String → String) (root : String) (request : http_request) (fd : Int)
    (entries : List String) (hcontent : heap.content.headD NUL ≠ NUL)
    (hdir : opendir fs (root ++ request.path) = some entries) :
    handle_files_request fs heap mime root (some request) fd = none := by
  cases hc : heap.content with
  | nil => simp [hc] at hcontent
  | cons x rest =>
    have hx : x ≠ NUL := by simpa [hc] using hcontent
    have hh : strlen (lit "<h1>Index</h1>") = 14 := by decide
    have hpos : 0 < strlen (realloc (heap.grown 0) (malloc (x :: rest) 1)
        (strlen (lit "<h1>Index</h1>") + 1)) := by
      rw [hh]
      simp [strlen, str, realloc, malloc, until_nul, hx]
    have hcat : strcat (realloc (heap.grown 0) (malloc (x :: rest) 1)
        (strlen (lit "<h1>Index</h1>") + 1)) (lit "<h1>Index</h1>") = none := by
      have hfit : ¬ strlen (realloc (heap.grown 0) (malloc (x :: rest) 1)
          (strlen (lit "<h1>Index</h1>") + 1)) + strlen (lit "<h1>Index</h1>") + 1
            ≤ strlen (lit "<h1>Index</h1>") + 1 := by
        omega
      exact if_neg hfit
    simp [handle_files_request, serve_directory, ls, hdir, hc, hcat]

/-- A path that cannot be opened, asked for while the one-byte block of
`content` begins with a byte `x` other than NUL: the 200 response, with `x` as
body. -/
theorem files_200_of_stale_content {fs : FileSystem} (heap : Heap) (mime : String → String)
    (root : String) (request : http_request) (fd : Int) (x : Char)
    (hcontent : heap.content.head? = some x) (hx : x ≠ NUL)
    (hdir : opendir fs (root ++ request.path) = none)
    (hfile : fopen fs (root ++ request.path) = none) :
    handle_files_request fs heap mime root (some request) fd =
      some [Call.http_request_parse fd,
        Call.http_start_response fd 200,
        Call.http_send_header fd "Content-type" (mime "index.html"),
        Call.http_send_header fd "Content-Length" "1",
        Call.http_send_header fd "Server" "httpserver/1.0",
        Call.http_end_headers fd,
        Call.http_send_data fd [x]] := by
  cases hc : heap.content with
  | nil => simp [hc] at hcontent
  | cons y rest =>
    have hy : y = x := by simpa [hc] using hcontent
    subst hy
    have hs : strlen (Block.mk [y] 1) = 1 := by
      simp [strlen, str, until_nul, hx]
    have hi : to_int 1 = 1 := by decide
    have hd : serve_directory fs heap mime root (root ++ request.path) (malloc heap.content 1) 0
        = some (mime "index.html", some (malloc heap.content 1), 0) := by
      simp [serve_directory, ls, hdir, cat, hfile]
    simp only [handle_files_request, Option.bind_eq_bind, Option.some_bind, hd]
    rw [hc]
    simp [hs, hi, http200, load, malloc]
    rfl

/-! ## Lemmas on the start-up flags -/

set_option maxRecDepth 100000

/-- A readable regular file whose contents `c` are not empty and do not begin
with a NUL byte is answered with status 200, a `Content-Length` of
min(|c|, 131072) and the first min(|c|, 131072) bytes of `c` as body, whatever
the allocator left in the blocks it handed out. -/
theorem regular_file_without_leading_nul_is_answered_200 (fs : FileSystem) (heap : Heap)
    (http_get_mime_type : String → String) (server_files_directory : String)
    (request : http_request) (fd : Int) (c : List Char)
    (hfile : fs (server_files_directory ++ request.path) = Node.file true c)
    (hne : c ≠ []) (hhead : c.head? ≠ some NUL) :
    ∃ calls,
      handle_files_request fs heap http_get_mime_type server_files_directory (some request) fd
        = some calls ∧
      status_codes calls = [200] ∧
      header_values "Content-Length" calls = [toString (min c.length 131072)] ∧
      written fd calls = c.take 131072 := by
  refine ⟨_, files_200_of_bytes heap http_get_mime_type server_files_directory request fd c
    (by simp [opendir, hfile]) (fopen_of_file hfile) hne hhead, ?_, ?_, ?_⟩
  · simp [status_codes]
  · simp [header_values]
  · simp [written]

/-- The scenario of the specification: the served root holds `a.txt` with the
contents `hello`; the request for `/a.txt` is answered with status 200,
`Content-Length: 5` and the body `hello`, whatever the allocator left in the
blocks it handed out. -/
theorem a_txt_hello_is_answered_200 (heap : Heap) :
    handle_files_request www heap sample_mime_type "/www" (some ⟨"GET", "/a.txt"⟩) 4 =
      some [Call.http_request_parse 4,
        Call.http_start_response 4 200,
        Call.http_send_header 4 "Content-type" "text/plain",
        Call.http_send_header 4 "Content-Length" "5",
        Call.http_send_header 4 "Server" "httpserver/1.0",
        Call.http_end_headers 4,
        Call.http_send_data 4 "hello".toList] :=
  files_200_of_bytes heap sample_mime_type "/www" ⟨"GET", "/a.txt"⟩ 4 "hello".toList
    (by decide) (by decide) (by decide) (by decide)

/-- A readable directory none of whose entry names contains the text
`index.html` (entry names being C strings, free of NUL) is answered with
status 200 and its listing as body, when the one-byte block the handler
allocates for `content` begins with a NUL byte: the heading and, for each entry
in the order of enumeration, a link carrying the entry's name; the
`Content-Length` is the length of that body. -/
theorem directory_without_index_text_is_answered_with_listing (fs : FileSystem) (heap : Heap)
    (http_get_mime_type : String → String) (server_files_directory : String)
    (request : http_request) (fd : Int) (entries : List String)
    (hcontent : heap.content.headD NUL = NUL)
    (hdir : fs (server_files_directory ++ request.path) = Node.dir true entries)
    (hnames : ∀ e ∈ entries, NUL ∉ e.toList)
    (hindex : ∀ e ∈ entries, ¬ "index.html".toList <:+: e.toList)
    (hsize : (listing entries).length < 2 ^ 31) :
    ∃ calls,
      handle_files_request fs heap http_get_mime_type server_files_directory (some request) fd
        = some calls ∧
      status_codes calls = [200] ∧
      header_values "Content-Length" calls = [toString (listing entries).length] ∧
      written fd calls = listing entries := by
  refine ⟨_, files_200_of_listing heap http_get_mime_type server_files_directory request fd
    entries hcontent (opendir_of_dir hdir) hnames (Or.inl hindex) hsize, ?_, ?_, ?_⟩
  · simp [status_codes]
  · simp [header_values]
  · simp [written]

/-- A path that does not exist or cannot be read is answered with the 404
response when the one-byte block the handler allocates for `content` begins
with a NUL byte, and so is a readable file of length zero when the block `cat`
allocates begins with a NUL byte: the only status sent is 404, with the fixed
HTML body, and no `Content-Length` header is sent. -/
theorem absent_unreadable_or_empty_is_answered_404_over_nul (fs : FileSystem) (heap : Heap)
    (http_get_mime_type : String → String) (server_files_directory : String)
    (request : http_request) (fd : Int)
    (h : ((fs (server_files_directory ++ request.path) = Node.absent
        ∨ (∃ c, fs (server_files_directory ++ request.path) = Node.file false c)
        ∨ (∃ entries, fs (server_files_directory ++ request.path) = Node.dir false entries))
        ∧ heap.content.headD NUL = NUL)
      ∨ (fs (server_files_directory ++ request.path) = Node.file true []
        ∧ heap.file.headD NUL = NUL)) :
    ∃ calls,
      handle_files_request fs heap http_get_mime_type server_files_directory (some request) fd
        = some calls ∧
      calls = Call.http_request_parse fd :: http404 fd ∧
      status_codes calls = [404] ∧
      written fd calls = "<center><h1>404 - Not found!</h1></center>".toList ∧
      header_values "Content-Length" calls = [] := by
  have hdir : opendir fs (server_files_directory ++ request.path) = none := by
    rcases h with ⟨h | ⟨c, h⟩ | ⟨es, h⟩, _⟩ | ⟨h, _⟩ <;> simp [opendir, h]
  have hfile : (fopen fs (server_files_directory ++ request.path) = none
        ∧ heap.content.headD NUL = NUL)
      ∨ (fopen fs (server_files_directory ++ request.path) = some []
        ∧ heap.file.headD NUL = NUL) := by
    rcases h with ⟨h | ⟨c, h⟩ | ⟨es, h⟩, hz⟩ | ⟨h, hz⟩
    · exact Or.inl ⟨by simp [fopen, h], hz⟩
    · exact Or.inl ⟨by simp [fopen, h], hz⟩
    · exact Or.inl ⟨by simp [fopen, h], hz⟩
    · exact Or.inr ⟨by simp [fopen, h], hz⟩
  refine ⟨_, files_404_of_no_bytes heap http_get_mime_type server_files_directory request fd
    hdir hfile, rfl, ?_, ?_, ?_⟩
  · simp [http404, status_codes]
  · simp [http404, written]
  · simp [http404, header_values]

/-- C1 (the code departs from the claim): the readable regular file
`/www/blob.bin` holds the two bytes NUL, `A`, so it is not empty, yet the
request for it is answered with the 404 response and not with status 200 and
`Content-Length: 2`, whatever the allocator left in the blocks it handed out;
the handler takes a body for empty when `strlen(content) == 0`, which a leading
NUL byte brings about. -/
theorem C1_file_with_leading_nul_is_answered_404 :
    www ("/www" ++ "/blob.bin") = Node.file true [NUL, 'A'] ∧
    ∀ heap : Heap,
      handle_files_request www heap sample_mime_type "/www" (some ⟨"GET", "/blob.bin"⟩) 4
        = some (Call.http_request_parse 4 :: http404 4) :=
  ⟨by decide, fun heap =>
    files_404_of_leading_nul heap sample_mime_type "/www" ⟨"GET", "/blob.bin"⟩ 4 [NUL, 'A']
      (by decide) (by decide) (by decide)⟩

/-- C2 (the code departs from the claim): `/www/nope` does not exist, and the
one-byte block the handler allocates for `content` holds the byte `x`, left
there by an earlier use of the memory.  The request for `/nope` is answered
with status 200, a `Content-Length` header and a body that begins with that
byte, not with the 404 response: the handler tests `strlen(content) == 0` on a
block that nothing has written to. -/
theorem C2_absent_path_is_answered_200_over_stale_byte :
    www ("/www" ++ "/nope") = Node.absent ∧
    (malloc stale_heap.content 1).bytes = ['x'] ∧
    ∃ calls,
      handle_files_request www stale_heap sample_mime_type "/www" (some ⟨"GET", "/nope"⟩) 4
        = some calls ∧
      status_codes calls = [200] ∧
      header_values "Content-Length" calls ≠ [] ∧
      (written 4 calls).head? = some 'x' ∧
      calls ≠ Call.http_request_parse 4 :: http404 4 := by
  have run : handle_files_request www stale_heap sample_mime_type "/www"
      (some ⟨"GET", "/nope"⟩) 4
      = some [Call.http_request_parse 4, Call.http_start_response 4 200,
        Call.http_send_header 4 "Content-type" "text/html",
        Call.http_send_header 4 "Content-Length" "1",
        Call.http_send_header 4 "Server" "httpserver/1.0",
        Call.http_end_headers 4,
        Call.http_send_data 4 ['x']] := by decide
  exact ⟨by decide, by decide, _, run, by decide, by decide, by decide, by decide⟩

/-- C3 refuted as stated: `/www/index.html` exists with the non-empty contents
`<p>home</p>`, the request `/docs` names a directory, and the answer is the
listing of `/www/docs`, not the bytes of the index file (the blocks handed out
by the allocator holding NUL bytes); whatever the allocator left in them, the
body sent is not that of the index file. -/
theorem C3_counterexample :
    www ("/www" ++ "/docs") = Node.dir true [".", "..", "notes.txt"] ∧
    www "/www/index.html" = Node.file true "<p>home</p>".toList ∧
    (∃ calls,
      handle_files_request www zeroed_heap sample_mime_type "/www" (some ⟨"GET", "/docs"⟩) 4
        = some calls ∧
      status_codes calls = [200] ∧
      written 4 calls = listing [".", "..", "notes.txt"] ∧
      written 4 calls ≠ "<p>home</p>".toList) ∧
    ∀ (heap : Heap) (calls : List Call),
      handle_files_request www heap sample_mime_type "/www" (some ⟨"GET", "/docs"⟩) 4
        = some calls → written 4 calls ≠ "<p>home</p>".toList := by
  have run : ∀ heap : Heap, heap.content.headD NUL = NUL →
      handle_files_request www heap sample_mime_type "/www" (some ⟨"GET", "/docs"⟩) 4
      = some [Call.http_request_parse 4, Call.http_start_response 4 200,
        Call.http_send_header 4 "Content-type" "text/html",
        Call.http_send_header 4 "Content-Length" "101",
        Call.http_send_header 4 "Server" "httpserver/1.0",
        Call.http_end_headers 4,
        Call.http_send_data 4 (listing [".", "..", "notes.txt"])] := fun heap hcontent =>
    files_200_of_listing heap sample_mime_type "/www" ⟨"GET", "/docs"⟩ 4
      [".", "..", "notes.txt"] hcontent (by decide) (by decide) (Or.inl (by decide))
      (by decide)
  refine ⟨by decide, by decide, ⟨_, run zeroed_heap rfl, by decide, by decide, by decide⟩, ?_⟩
  intro heap calls hcalls
  by_cases hcontent : heap.content.headD NUL = NUL
  · rw [run heap hcontent] at hcalls
    cases hcalls
    decide
  · rw [files_undefined_of_dir_of_stale_content heap sample_mime_type "/www" ⟨"GET", "/docs"⟩ 4
      [".", "..", "notes.txt"] hcontent (by decide)] at hcalls
    cases hcalls

/-- C3 as amended: when the request names a directory that has an entry named
`index.html` (entry names being C strings, free of NUL), `index.html` in the
served root is a readable file with non-empty contents `c` that do not begin
with a NUL byte, and the one-byte block the handler allocates for `content`
begins with a NUL byte, `handle_files_request` answers with status 200, a
`Content-Length` of min(|c|, 131072) and the first min(|c|, 131072) bytes of
`c` as body. -/
theorem C3_index_of_root_served_for_directory_listing_it (fs : FileSystem) (heap : Heap)
    (http_get_mime_type : String → String) (server_files_directory : String)
    (request : http_request) (fd : Int) (entries : List String) (c : List Char)
    (hcontent : heap.content.headD NUL = NUL)
    (hdir : fs (server_files_directory ++ request.path) = Node.dir true entries)
    (hnames : ∀ e ∈ entries, NUL ∉ e.toList)
    (hentry : "index.html" ∈ entries)
    (hindex : fs (server_files_directory ++ "/index.html") = Node.file true c)
    (hne : c ≠ []) (hhead : c.head? ≠ some NUL) :
    ∃ calls,
      handle_files_request fs heap http_get_mime_type server_files_directory (some request) fd
        = some calls ∧
      status_codes calls = [200] ∧
      header_values "Content-Length" calls = [toString (min c.length 131072)] ∧
      written fd calls = c.take 131072 := by
  refine ⟨_, files_200_of_index heap http_get_mime_type server_files_directory request fd
    entries c hcontent (opendir_of_dir hdir) hnames ⟨"index.html", hentry, List.infix_refl _⟩
    (fopen_of_file hindex) hne hhead, ?_, ?_, ?_⟩
  · simp [status_codes]
  · simp [header_values]
  · simp [written]

/-- C3 as amended, at a concrete request: the root directory `/www/` lists
`index.html`, `/www/index.html` holds `<p>home</p>`, and the blocks handed out
by the allocator hold NUL bytes. -/
theorem C3_witness :
    (www ("/www" ++ "/") = Node.dir true
      [".", "..", "a.txt", "backup", "blob.bin", "docs", "empty.txt", "index.html"]) ∧
    ∃ calls,
      handle_files_request www zeroed_heap sample_mime_type "/www" (some ⟨"GET", "/"⟩) 4
        = some calls ∧
      status_codes calls = [200] ∧
      header_values "Content-Length" calls = [toString (min "<p>home</p>".toList.length 131072)] ∧
      written 4 calls = "<p>home</p>".toList.take 131072 :=
  ⟨by decide,
    C3_index_of_root_served_for_directory_listing_it www zeroed_heap sample_mime_type "/www"
      ⟨"GET", "/"⟩ 4
      [".", "..", "a.txt", "backup", "blob.bin", "docs", "empty.txt", "index.html"]
      "<p>home</p>".toList rfl (by decide) (by decide) (by decide)
      (by decide) (by decide) (by decide)⟩

/-- C4 (the code departs from the claim): `/www/backup` is a directory with
the entries `.`, `..` and `index.html.bak`, none of them named `index.html`,
yet the request for it is answered with the bytes of `/www/index.html` and not
with the listing (the blocks handed out by the allocator holding NUL bytes);
whatever the allocator left in them, the body sent is not the listing.  The
handler looks for the text `index.html` anywhere in the listing (`strstr`), and
then reads the index file of the served root. -/
theorem C4_entry_containing_index_html_hides_the_listing :
    www ("/www" ++ "/backup") = Node.dir true [".", "..", "index.html.bak"] ∧
    "index.html" ∉ [".", "..", "index.html.bak"] ∧
    (∃ calls,
      handle_files_request www zeroed_heap sample_mime_type "/www" (some ⟨"GET", "/backup"⟩) 4
        = some calls ∧
      status_codes calls = [200] ∧
      written 4 calls = "<p>home</p>".toList ∧
      written 4 calls ≠ listing [".", "..", "index.html.bak"]) ∧
    ∀ (heap : Heap) (calls : List Call),
      handle_files_request www heap sample_mime_type "/www" (some ⟨"GET", "/backup"⟩) 4
        = some calls → written 4 calls ≠ listing [".", "..", "index.html.bak"] := by
  have run : ∀ heap : Heap, heap.content.headD NUL = NUL →
      handle_files_request www heap sample_mime_type "/www" (some ⟨"GET", "/backup"⟩) 4
      = some [Call.http_request_parse 4, Call.http_start_response 4 200,
        Call.http_send_header 4 "Content-type" "text/html",
        Call.http_send_header 4 "Content-Length" "11",
        Call.http_send_header 4 "Server" "httpserver/1.0",
        Call.http_end_headers 4,
        Call.http_send_data 4 "<p>home</p>".toList] := fun heap hcontent =>
    files_200_of_index heap sample_mime_type "/www" ⟨"GET", "/backup"⟩ 4
      [".", "..", "index.html.bak"] "<p>home</p>".toList hcontent (by decide) (by decide)
      ⟨"index.html.bak", by decide, by decide⟩ (by decide) (by decide) (by decide)
  refine ⟨by decide, by decide, ⟨_, run zeroed_heap rfl, by decide, by decide, by decide⟩, ?_⟩
  intro heap calls hcalls
  by_cases hcontent : heap.content.headD NUL = NUL
  · rw [run heap hcontent] at hcalls
    cases hcalls
    decide
  · rw [files_undefined_of_dir_of_stale_content heap sample_mime_type "/www"
      ⟨"GET", "/backup"⟩ 4 [".", "..", "index.html.bak"] hcontent (by decide)] at hcalls
    cases hcalls

/-! ## The claims on proxy mode -/

/-- C5 (the code departs from the claim): the client delivers the two chunks
`GET ` and `/ HTTP/1.0\r\n\r\n` before the end of its stream; the copy task from
the client (descriptor 4) to the upstream (descriptor 7) reads once and
forwards `GET ` only, not the concatenation of the chunks: the body of
`do ... while (0)` in `handle_proxy_routine` runs a single time. -/
theorem C5_copy_task_forwards_first_chunk_only :
    written 7 (handle_proxy_routine_c ⟨4, 7⟩
      ⟨["GET ".toList, "/ HTTP/1.0\r\n\r\n".toList], false⟩) = "GET ".toList ∧
    written 7 (handle_proxy_routine_c ⟨4, 7⟩
      ⟨["GET ".toList, "/ HTTP/1.0\r\n\r\n".toList], false⟩)
      ≠ "GET ".toList ++ "/ HTTP/1.0\r\n\r\n".toList := by
  decide

/-- C6: when the socket was created, the host was found and `connect` fails,
`handle_proxy_request` parses one request from the client, then sends one
response, with status 502, `Content-Type: text/html` and the Bad Gateway body,
creates no relay thread and returns. -/
theorem C6_connect_failure_is_answered_502 (server_proxy_hostname : String)
    (server_proxy_port : Int) (env : ProxyEnv) (fd : Int)
    (hsocket : env.client_socket_fd ≠ -1) (hdns : env.target_dns_entry = true)
    (hconnect : env.connection_status < 0) :
    handle_proxy_request server_proxy_hostname server_proxy_port env fd =
      ⟨[Call.gethostbyname2 server_proxy_hostname,
        Call.socket env.client_socket_fd,
        Call.connect env.client_socket_fd server_proxy_port,
        Call.http_request_parse fd,
        Call.http_start_response fd 502,
        Call.http_send_header fd "Content-Type" "text/html",
        Call.http_end_headers fd,
        Call.http_send_string fd "<center><h1>502 Bad Gateway</h1><hr></center>"],
        Ending.returned⟩ ∧
    status_codes (handle_proxy_request server_proxy_hostname server_proxy_port env fd).calls
      = [502] ∧
    ∀ routine arg, Call.pthread_create routine arg ∉
      (handle_proxy_request server_proxy_hostname server_proxy_port env fd).calls := by
  have run : handle_proxy_request server_proxy_hostname server_proxy_port env fd =
      ⟨[Call.gethostbyname2 server_proxy_hostname,
        Call.socket env.client_socket_fd,
        Call.connect env.client_socket_fd server_proxy_port,
        Call.http_request_parse fd,
        Call.http_start_response fd 502,
        Call.http_send_header fd "Content-Type" "text/html",
        Call.http_end_headers fd,
        Call.http_send_string fd "<center><h1>502 Bad Gateway</h1><hr></center>"],
        Ending.returned⟩ := by
    simp [handle_proxy_request, hsocket, hdns, hconnect]
  refine ⟨run, ?_, ?_⟩
  · rw [run]; rfl
  · intro routine arg
    rw [run]
    simp

/-- C6 at a concrete connection: descriptor 4, upstream socket 7, `connect`
returns -1. -/
theorem C6_witness :
    ((7 : Int) ≠ -1 ∧ (-1 : Int) < 0) ∧
    status_codes (handle_proxy_request "localhost" 8080
      ⟨true, 7, -1, 0, "", true, true⟩ 4).calls = [502] ∧
    (handle_proxy_request "localhost" 8080 ⟨true, 7, -1, 0, "", true, true⟩ 4).ending
      = Ending.returned :=
  ⟨by decide,
    (C6_connect_failure_is_answered_502 "localhost" 8080 ⟨true, 7, -1, 0, "", true, true⟩ 4
      (by decide) rfl (by decide)).2.1,
    by decide⟩

/-- C7 refuted as stated: the host is not found (the socket, descriptor 7,
was created); the handler sends no response, parses no request and does not
return: the process exits with status `ENXIO`. -/
theorem C7_counterexample :
    (handle_proxy_request "nowhere.invalid" 80 ⟨false, 7, 0, 0, "", true, true⟩ 4).ending
      = Ending.exited ENXIO ∧
    status_codes (handle_proxy_request "nowhere.invalid" 80
      ⟨false, 7, 0, 0, "", true, true⟩ 4).calls = [] ∧
    Call.http_request_parse 4 ∉
      (handle_proxy_request "nowhere.invalid" 80 ⟨false, 7, 0, 0, "", true, true⟩ 4).calls := by
  decide

/-- C7 as amended: when the resolution of the configured upstream hostname
fails (the socket having been created), `handle_proxy_request` writes
`Cannot find host: <hostname>` to the standard error stream and ends the whole
process with exit status `ENXIO`; it parses no request, sends no response and
does not return to its caller. -/
theorem C7_resolution_failure_exits_the_process (server_proxy_hostname : String)
    (server_proxy_port : Int) (env : ProxyEnv) (fd : Int)
    (hsocket : env.client_socket_fd ≠ -1) (hdns : env.target_dns_entry = false) :
    handle_proxy_request server_proxy_hostname server_proxy_port env fd =
      ⟨[Call.gethostbyname2 server_proxy_hostname,
        Call.socket env.client_socket_fd,
        Call.stderr ("Cannot find host: " ++ server_proxy_hostname ++ "\n")],
        Ending.exited ENXIO⟩ := by
  simp [handle_proxy_request, hsocket, hdns]

/-- C7 as amended, at a concrete connection. -/
theorem C7_witness :
    (7 : Int) ≠ -1 ∧
    handle_proxy_request "nowhere.invalid" 80 ⟨false, 7, 0, 0, "", true, true⟩ 4 =
      ⟨[Call.gethostbyname2 "nowhere.invalid", Call.socket 7,
        Call.stderr ("Cannot find host: " ++ "nowhere.invalid" ++ "\n")],
        Ending.exited ENXIO⟩ :=
  ⟨by decide,
    C7_resolution_failure_exits_the_process "nowhere.invalid" 80
      ⟨false, 7, 0, 0, "", true, true⟩ 4 (by decide) rfl⟩

/-- C8 refuted as stated: `connect` fails, the handler returns, and the
upstream socket it opened (descriptor 7) has not been closed. -/
theorem C8_counterexample :
    (handle_proxy_request "localhost" 8080 ⟨true, 7, -1, 0, "", true, true⟩ 4).ending
      = Ending.returned ∧
    left_open (handle_proxy_request "localhost" 8080
      ⟨true, 7, -1, 0, "", true, true⟩ 4).calls = [7] := by
  decide

/-- C8 as amended: whenever `handle_proxy_request` returns, it has made no
`close` call, so the upstream socket it opened is still open; and when it
returns after a successful `connect`, both relay threads were created and then
joined, `handle_proxy_routine_p` first and `handle_proxy_routine_c` second,
before the return. -/
theorem C8_returns_after_joining_with_socket_left_open (server_proxy_hostname : String)
    (server_proxy_port : Int) (env : ProxyEnv) (fd : Int)
    (hret : (handle_proxy_request server_proxy_hostname server_proxy_port env fd).ending
      = Ending.returned) :
    (∀ d, Call.close d ∉
      (handle_proxy_request server_proxy_hostname server_proxy_port env fd).calls) ∧
    left_open (handle_proxy_request server_proxy_hostname server_proxy_port env fd).calls
      = [env.client_socket_fd] ∧
    (0 ≤ env.connection_status →
      (handle_proxy_request server_proxy_hostname server_proxy_port env fd).calls =
        [Call.gethostbyname2 server_proxy_hostname,
          Call.socket env.client_socket_fd,
          Call.connect env.client_socket_fd server_proxy_port,
          Call.pthread_create Routine.handle_proxy_routine_c ⟨fd, env.client_socket_fd⟩,
          Call.pthread_create Routine.handle_proxy_routine_p ⟨fd, env.client_socket_fd⟩,
          Call.pthread_join Routine.handle_proxy_routine_p,
          Call.pthread_join Routine.handle_proxy_routine_c]) := by
  by_cases hsocket : env.client_socket_fd = -1
  · simp [handle_proxy_request, hsocket] at hret
  · by_cases hdns : env.target_dns_entry = false
    · simp [handle_proxy_request, hsocket, hdns] at hret
    · by_cases hconnect : env.connection_status < 0
      · have hc : ¬ (0 ≤ env.connection_status) := by omega
        simp [handle_proxy_request, hsocket, hdns, hconnect, left_open, opened, hc]
      · by_cases hp : env.proxy_to_client_created = false
        · simp [handle_proxy_request, hsocket, hdns, hconnect, hp] at hret
        · by_cases hcc : env.client_to_proxy_created = false
          · simp [handle_proxy_request, hsocket, hdns, hconnect, hp, hcc] at hret
          · simp [handle_proxy_request, hsocket, hdns, hconnect, hp, hcc, left_open, opened]

/-- C8 as amended, at a concrete connection whose `connect` succeeds. -/
theorem C8_witness :
    (handle_proxy_request "localhost" 8080 ⟨true, 7, 0, 0, "", true, true⟩ 4).ending
      = Ending.returned ∧
    left_open (handle_proxy_request "localhost" 8080
      ⟨true, 7, 0, 0, "", true, true⟩ 4).calls = [7] :=
  ⟨by decide,
    (C8_returns_after_joining_with_socket_left_open "localhost" 8080
      ⟨true, 7, 0, 0, "", true, true⟩ 4 (by decide)).2.1⟩

/-! ## The claims on the start-up flags -/

theorem reduceOption_set_some : ∀ (ws : List (Option Int)) (i : Nat) (c : Int),
    ws[i]? = some none → ((ws.set i (some c)).reduceOption).Perm (c :: ws.reduceOption)
  | [], i, c, h => by simp at h
  | w :: ws, 0, c, h => by
    simp only [List.getElem?_cons_zero, Option.some.injEq] at h
    subst h
    simp [List.reduceOption_cons_of_some, List.reduceOption_cons_of_none]
  | none :: ws, i + 1, c, h => by
    simp only [List.getElem?_cons_succ] at h
    simpa [List.reduceOption_cons_of_none] using reduceOption_set_some ws i c h
  | some a :: ws, i + 1, c, h => by
    simp only [List.getElem?_cons_succ] at h
    simp only [List.set_cons_succ, List.reduceOption_cons_of_some]
    exact ((reduceOption_set_some ws i c h).cons a).trans (List.Perm.swap c a _)

theorem reduceOption_set_none : ∀ (ws : List (Option Int)) (i : Nat) (c : Int),
    ws[i]? = some (some c) → (c :: (ws.set i none).reduceOption).Perm ws.reduceOption
  | [], i, c, h => by simp at h
  | w :: ws, 0, c, h => by
    simp only [List.getElem?_cons_zero, Option.some.injEq] at h
    subst h
    simp [List.reduceOption_cons_of_some, List.reduceOption_cons_of_none]
  | none :: ws, i + 1, c, h => by
    simp only [List.getElem?_cons_succ] at h
    simpa [List.reduceOption_cons_of_none] using reduceOption_set_none ws i c h
  | some a :: ws, i + 1, c, h => by
    simp only [List.getElem?_cons_succ] at h
    simp only [List.set_cons_succ, List.reduceOption_cons_of_some]
    exact (List.Perm.swap a c _).trans ((reduceOption_set_none ws i c h).cons a)

theorem pool_step_add {p q : Pool} (h : pool_step p PoolMove.thread_pool_add = some q) :
    ∃ c more, p.accepted = c :: more ∧ p.queue.length < p.capacity ∧
      q = { p with accepted := more, queue := p.queue ++ [c] } := by
  simp only [pool_step] at h
  split at h
  · cases h
  · rename_i c more hacc
    split_ifs at h with hcap
    cases h
    exact ⟨c, more, hacc, hcap, rfl⟩

theorem pool_step_dequeue {p q : Pool} {worker : Nat}
    (h : pool_step p (PoolMove.dequeue worker) = some q) :
    ∃ c more, p.workers[worker]? = some none ∧ p.queue = c :: more ∧
      q = { p with queue := more, workers := p.workers.set worker (some c) } := by
  simp only [pool_step] at h
  split at h
  · rename_i c more hw hq
    cases h
    exact ⟨c, more, hw, hq, rfl⟩
  · cases h

theorem pool_step_finish {p q : Pool} {worker : Nat}
    (h : pool_step p (PoolMove.finish worker) = some q) :
    ∃ c, p.workers[worker]? = some (some c) ∧
      q = { p with workers := p.workers.set worker none, handled := p.handled ++ [c] } := by
  simp only [pool_step] at h
  split at h
  · rename_i c hw
    cases h
    exact ⟨c, hw, rfl⟩
  · cases h

/-- What one move of the pool keeps and what it uses up. -/
theorem pool_step_spec {p q : Pool} {move : PoolMove} (h : pool_step p move = some q) :
    q.workers.length = p.workers.length ∧ q.capacity = p.capacity ∧
    (q.accepted ++ q.queue ++ handling q ++ q.handled).Perm
      (p.accepted ++ p.queue ++ handling p ++ p.handled) ∧
    3 * p.accepted.length + 2 * p.queue.length + (handling p).length
      = 3 * q.accepted.length + 2 * q.queue.length + (handling q).length + 1 ∧
    (p.queue.length ≤ p.capacity → q.queue.length ≤ q.capacity) := by
  cases move with
  | thread_pool_add =>
    obtain ⟨c, more, hacc, hcap, rfl⟩ := pool_step_add h
    refine ⟨rfl, rfl, ?_, ?_, ?_⟩
    · rw [List.perm_iff_count]
      intro a
      simp only [hacc, handling, List.count_append, List.count_cons, List.count_nil]
      omega
    · simp only [hacc, handling, List.length_append, List.length_cons, List.length_nil]
      omega
    · intro _
      simp only [List.length_append, List.length_cons, List.length_nil]
      omega
  | dequeue worker =>
    obtain ⟨c, more, hw, hq, rfl⟩ := pool_step_dequeue h
    have hperm := reduceOption_set_some p.workers worker c hw
    refine ⟨List.length_set _ _ _, rfl, ?_, ?_, ?_⟩
    · rw [List.perm_iff_count]
      intro a
      have := hperm.count_eq a
      simp only [hq, handling, List.count_append, List.count_cons, List.count_nil] at this ⊢
      omega
    · have := hperm.length_eq
      simp only [hq, handling, List.length_cons] at this ⊢
      omega
    · intro hle
      simp only [hq, List.length_cons] at hle ⊢
      omega
  | finish worker =>
    obtain ⟨c, hw, rfl⟩ := pool_step_finish h
    have hperm := reduceOption_set_none p.workers worker c hw
    refine ⟨List.length_set _ _ _, rfl, ?_, ?_, ?_⟩
    · rw [List.perm_iff_count]
      intro a
      have := hperm.count_eq a
      simp only [handling, List.count_append, List.count_cons, List.count_nil] at this ⊢
      omega
    · have := hperm.length_eq
      simp only [handling, List.length_cons] at this ⊢
      omega
    · exact id


/-- What a run of the pool keeps, and the number of moves it takes. -/
theorem pool_run_spec : ∀ (schedule : List PoolMove) (p q : Pool),
    pool_run schedule p = some q →
      q.workers.length = p.workers.length ∧ q.capacity = p.capacity ∧
      (q.accepted ++ q.queue ++ handling q ++ q.handled).Perm
        (p.accepted ++ p.queue ++ handling p ++ p.handled) ∧
      3 * p.accepted.length + 2 * p.queue.length + (handling p).length
        = 3 * q.accepted.length + 2 * q.queue.length + (handling q).length + schedule.length ∧
      (p.queue.length ≤ p.capacity → q.queue.length ≤ q.capacity)
  | [], p, q, h => by
    simp only [pool_run, Option.some.injEq] at h
    subst h
    exact ⟨rfl, rfl, List.Perm.refl _, rfl, id⟩
  | move :: more, p, q, h => by
    rw [pool_run] at h
    cases hs : pool_step p move with
    | none => rw [hs] at h; cases h
    | some p1 =>
      rw [hs] at h
      obtain ⟨w1, c1, perm1, m1, b1⟩ := pool_step_spec hs
      obtain ⟨w2, c2, perm2, m2, b2⟩ := pool_run_spec more p1 q h
      refine ⟨w2.trans w1, c2.trans c1, perm2.trans perm1, ?_, fun hle => b2 (b1 hle)⟩
      simp only [List.length_cons]
      omega

/-- A pool with a worker and room in its queue is never stuck while a
connection is waiting, queued or being handled. -/
theorem pool_progress (p : Pool) (hworkers : 1 ≤ p.workers.length) (hcap : 1 ≤ p.capacity)
    (hwork : p.accepted ≠ [] ∨ p.queue ≠ [] ∨ handling p ≠ []) :
    ∃ move q, pool_step p move = some q := by
  by_cases hh : handling p = []
  · by_cases hq : p.queue = []
    · have ha : p.accepted ≠ [] := by
        rcases hwork with h | h | h
        · exact h
        · exact absurd hq h
        · exact absurd hh h
      obtain ⟨c, more, hacc⟩ := List.exists_cons_of_ne_nil ha
      refine ⟨PoolMove.thread_pool_add,
        { p with accepted := more, queue := p.queue ++ [c] }, ?_⟩
      simp only [pool_step, hacc, hq, List.length_nil]
      rw [if_pos (by omega)]
    · obtain ⟨c, more, hqueue⟩ := List.exists_cons_of_ne_nil hq
      obtain ⟨w, ws, hws⟩ := List.exists_cons_of_ne_nil
        (List.ne_nil_of_length_pos (by omega) : p.workers ≠ [])
      have hw : w = none := by
        cases w with
        | none => rfl
        | some a =>
          have : a ∈ handling p := by
            simp [handling, hws, List.reduceOption_cons_of_some]
          rw [hh] at this
          cases this
      refine ⟨PoolMove.dequeue 0,
        { p with queue := more, workers := p.workers.set 0 (some c) }, ?_⟩
      simp only [pool_step, hws, hw, List.getElem?_cons_zero, hqueue]
  · obtain ⟨c, hc⟩ := List.exists_mem_of_ne_nil _ hh
    have hmem : some c ∈ p.workers := List.reduceOption_mem_iff.mp hc
    obtain ⟨i, hi⟩ := List.mem_iff_getElem?.mp hmem
    refine ⟨PoolMove.finish i,
      { p with workers := p.workers.set i none, handled := p.handled ++ [c] }, ?_⟩
    simp only [pool_step, hi]


theorem handling_thread_pool_init (num_threads capacity : Nat) (connections : List Int) :
    handling (thread_pool_init num_threads capacity connections) = [] := by
  simp only [handling, thread_pool_init]
  induction num_threads with
  | zero => rfl
  | succ n ih => simpa [List.replicate_succ, List.reduceOption_cons_of_none] using ih

theorem handled_perm_of_rest_empty {p : Pool} {connections : List Int}
    (hperm : (p.accepted ++ p.queue ++ handling p ++ p.handled).Perm connections)
    (hlen : p.accepted.length + p.queue.length + (handling p).length = 0) :
    p.handled.Perm connections := by
  have ha : p.accepted = [] := List.eq_nil_of_length_eq_zero (by omega)
  have hq : p.queue = [] := List.eq_nil_of_length_eq_zero (by omega)
  have hh : handling p = [] := List.eq_nil_of_length_eq_zero (by omega)
  simpa [ha, hq, hh] using hperm

/-- C11: a pool of N >= 1 workers on a queue with room for at least one
connection, fed the M accepted connections (any M, in particular M > N): in
every state a schedule can reach, at most N connections are being handled and
at most `capacity` are queued; every connection is in exactly one place
(waiting to be submitted, queued, being handled, or handled), so none is lost
or duplicated; while some connection is not yet handled a move can be made
(handler calls return, so there is no deadlock); a schedule has at most 3 * M
moves, and once 3 * M moves are made, or no move is left, the connections
handled are exactly the M submitted ones, each once. -/
theorem C11_pool_bounds_concurrency_and_handles_each_connection_once
    (num_threads capacity : Nat) (connections : List Int) (schedule : List PoolMove)
    (p : Pool) (hN : 1 ≤ num_threads) (hcap : 1 ≤ capacity)
    (hrun : pool_run schedule (thread_pool_init num_threads capacity connections) = some p) :
    (handling p).length ≤ num_threads ∧
    p.queue.length ≤ capacity ∧
    (p.accepted ++ p.queue ++ handling p ++ p.handled).Perm connections ∧
    (p.handled.length < connections.length → ∃ move q, pool_step p move = some q) ∧
    schedule.length ≤ 3 * connections.length ∧
    (schedule.length = 3 * connections.length → p.handled.Perm connections) ∧
    ((∀ move, pool_step p move = none) → p.handled.Perm connections) := by
  obtain ⟨hw, hc, hperm, hmeasure, hbound⟩ := pool_run_spec schedule _ p hrun
  have hinit := handling_thread_pool_init num_threads capacity connections
  rw [hinit] at hperm hmeasure
  simp only [thread_pool_init, List.length_replicate, List.append_nil, List.length_nil,
    Nat.mul_zero, Nat.add_zero, Nat.zero_le, forall_true_left] at hw hc hperm hmeasure hbound
  have hlen := hperm.length_eq
  simp only [List.length_append] at hlen
  have hprogress : p.handled.length < connections.length →
      ∃ move q, pool_step p move = some q := by
    intro hlt
    apply pool_progress p (by omega) (by omega)
    by_contra hnone
    simp only [not_or, not_not] at hnone
    obtain ⟨ha, hq, hh⟩ := hnone
    rw [ha, hq, hh] at hlen
    simp only [List.length_nil] at hlen
    omega
  refine ⟨?_, ?_, hperm, hprogress, by omega, ?_, ?_⟩
  · calc (handling p).length ≤ p.workers.length := List.reduceOption_length_le _
      _ = num_threads := hw
  · rw [← hc]; exact hbound
  · intro hfull
    exact handled_perm_of_rest_empty hperm (by omega)
  · intro hstuck
    have hall : ¬ p.handled.length < connections.length := by
      intro hlt
      obtain ⟨move, q, hq⟩ := hprogress hlt
      rw [hstuck move] at hq
      cases hq
    exact handled_perm_of_rest_empty hperm (by omega)

/-- C11 at a concrete pool: two workers, a queue with room for one
connection, the three connections 4, 5 and 6, and a schedule of nine moves. -/
theorem C11_witness :
    ((1 : Nat) ≤ 2 ∧ (1 : Nat) ≤ 1 ∧
      pool_run three_connections_schedule (thread_pool_init 2 1 [4, 5, 6])
        = some three_connections_handled) ∧
    three_connections_schedule.length = 3 * [(4 : Int), 5, 6].length ∧
    (handling three_connections_handled).length ≤ 2 ∧
    three_connections_handled.handled.Perm [4, 5, 6] :=
  have h := C11_pool_bounds_concurrency_and_handles_each_connection_once 2 1 [4, 5, 6]
    three_connections_schedule three_connections_handled (by decide) (by decide) (by decide)
  ⟨⟨by decide, by decide, by decide⟩, by decide, h.1, h.2.2.2.2.2.1 (by decide)⟩

/-! ## The claim on one cycle of a relay task -/

end httpserver
